import Mathlib

/-!
Verification of the resource cache pool subsystem of Langchain-Chatchat
(`server/knowledge_base/kb_cache/base.py` and
`server/knowledge_base/kb_cache/faiss_cache.py`) against its
natural-language specification.

The Python `OrderedDict` backing `CachePool._cache` is embedded as an
association list whose head is the least-recently-used end and whose last
element is the most-recently-used end (Python appends new keys at the end,
`popitem(last=False)` removes the front, `move_to_end` moves a key to the
back, and assignment to an existing key keeps its position).
-/

namespace KBCache

set_option linter.unusedVariables false

/-- Lookup in an ordered dictionary: returns the first binding of the key,
without reordering anything (Python `dict.get`). -/
def odGet {K V : Type} [DecidableEq K] (l : List (K × V)) (k : K) : Option V :=
  match l with
  | [] => none
  | (k', v) :: rest => if k' = k then some v else odGet rest k

/-- Assignment `d[k] = v` on an ordered dictionary: an existing key keeps its
position and gets the new value; an absent key is appended at the
most-recently-used end. -/
def odSet {K V : Type} [DecidableEq K] (l : List (K × V)) (k : K) (v : V) :
    List (K × V) :=
  match l with
  | [] => [(k, v)]
  | (k', v') :: rest =>
      if k' = k then (k, v) :: rest else (k', v') :: odSet rest k v

/-- Removal `d.pop(k, None)`: deletes the first binding of the key, if any. -/
def odPopKey {K V : Type} [DecidableEq K] (l : List (K × V)) (k : K) :
    List (K × V) :=
  match l with
  | [] => []
  | (k', v') :: rest =>
      if k' = k then rest else (k', v') :: odPopKey rest k

/-- The `move_to_end` operation: moves the binding of a present key to the
most-recently-used end. (The Python call raises `KeyError` on an absent key;
every modelled call site first establishes presence, so the absent case is
modelled as the identity.) -/
def odMoveToEnd {K V : Type} [DecidableEq K] (l : List (K × V)) (k : K) :
    List (K × V) :=
  match odGet l k with
  | none => l
  | some v => odPopKey l k ++ [(k, v)]

/-- The `threading.Event`/`threading.RLock` state of a `ThreadSafeObject`
(base.py): payload (initially `None`), the readiness event `_loaded`
(a `threading.Event` starts unset), and the reentrant lock `_lock`, modelled
by its holding thread id (no modelled code path re-enters a held lock, so the
reentrancy counter is omitted).  The `key` field and the back-reference
`_pool` of the Python class are kept at the pool level: the back-reference is
used only for `move_to_end` inside `acquire`, which is folded into
`CachePool.acquire` below. -/
structure ThreadSafeObject (V : Type) where
  obj : Option V := none
  loaded : Bool := false
  lock : Option Nat := none
  deriving DecidableEq, Repr

/-- The cache pool state of `CachePool` (base.py): the capacity bound
`_cache_num` (an `int`, `-1` by default) and the ordered dictionary
`_cache`. -/
structure CachePool (K V : Type) where
  cache_num : Int := -1
  cache : List (K × ThreadSafeObject V) := []
  deriving DecidableEq, Repr

/-- The Python constructor `CachePool.__init__(cache_num)`: it accepts any
integer without validation and starts with an empty ordered dictionary. -/
def CachePool.init (K V : Type) (cache_num : Int) : CachePool K V :=
  { cache_num := cache_num, cache := [] }

/-- The body of the `while len(self._cache) > self._cache_num` loop of
`CachePool._check_count`: repeatedly remove the front (least-recently-used)
item until the length is within the bound.  Called only under the guard
`self._cache_num > 0`, hence the bound is taken as a natural number. -/
def checkCountLoop {K V : Type} (num : Nat) :
    List (K × ThreadSafeObject V) → List (K × ThreadSafeObject V)
  | [] => []
  | a :: l =>
      if (a :: l).length > num then checkCountLoop num ((a :: l).tail)
      else a :: l

/-- The capacity check `CachePool._check_count` (base.py): when the configured
bound is a positive integer, evict from the least-recently-used end until the
entry count is within the bound; otherwise do nothing.  Note that the loop
inspects only the entry count and the position of each item: the readiness
event of an evicted entry is never consulted. -/
def CachePool._check_count {K V : Type} (p : CachePool K V) : CachePool K V :=
  if p.cache_num > 0 then
    { p with cache := checkCountLoop p.cache_num.toNat p.cache }
  else p

/-- The possible sequential outcomes of `CachePool.get` (base.py): the key is
absent (`dict.get` returned `None` and the function falls through returning
`None`), or the entry is present but its readiness event is unset so
`wait_for_loading()` blocks (with no other thread to set the event the call
never returns — `blocked`), or the entry is present and ready and is
returned. -/
inductive GetResult (V : Type) where
  | absent
  | blocked
  | found (o : ThreadSafeObject V)
  deriving DecidableEq, Repr

/-- The lookup `CachePool.get` (base.py): `self._cache.get(key)` followed by
`cache.wait_for_loading()`.  It reads the ordered dictionary without
reordering it — `dict.get` does not move the key — and it never returns an
entry whose readiness event is unset. -/
def CachePool.get {K V : Type} [DecidableEq K] (p : CachePool K V) (k : K) :
    GetResult V :=
  match odGet p.cache k with
  | none => .absent
  | some o => if o.loaded then .found o else .blocked

/-- The insertion `CachePool.set` (base.py): `self._cache[key] = obj` followed
by `self._check_count()`. -/
def CachePool.set {K V : Type} [DecidableEq K] (p : CachePool K V) (k : K)
    (o : ThreadSafeObject V) : CachePool K V :=
  CachePool._check_count { p with cache := odSet p.cache k o }

/-- The removal `CachePool.pop` (base.py): with a key, `self._cache.pop(key,
None)`; with `None`, `self._cache.popitem(last=False)` removes the front
(least-recently-used) item.  Returns the removed entry (if any) and the new
pool.  No lock of the removed entry is taken or released. -/
def CachePool.pop {K V : Type} [DecidableEq K] (p : CachePool K V)
    (k : Option K) : Option (ThreadSafeObject V) × CachePool K V :=
  match k with
  | none =>
      (p.cache.head?.map Prod.snd, { p with cache := p.cache.tail })
  | some k =>
      (odGet p.cache k, { p with cache := odPopKey p.cache k })

/-- The possible sequential outcomes of `CachePool.acquire` combined with the
`ThreadSafeObject.acquire` context manager it enters (base.py): the key is
absent (`RuntimeError` raised), or the caller blocks (entry still loading, or
the per-object lock is held by another thread), or the lock is taken and the
payload yielded together with the updated pool. -/
inductive AcquireResult (K V : Type) where
  | error
  | blocked
  | ok (payload : Option V) (p : CachePool K V)
  deriving DecidableEq, Repr

/-- The accessor `CachePool.acquire` for thread `t` (base.py): `self.get(key)`
(raising if absent), then `self._cache.move_to_end(key)`, then the
`ThreadSafeObject.acquire` context manager, which acquires the per-object
lock and again calls `self._pool._cache.move_to_end(self.key)` before
yielding the payload. -/
def CachePool.acquire {K V : Type} [DecidableEq K] (p : CachePool K V) (k : K)
    (t : Nat) : AcquireResult K V :=
  match p.get k with
  | .absent => .error
  | .blocked => .blocked
  | .found o =>
      match o.lock with
      | some t' =>
          if t' = t then
            .ok o.obj
              { p with cache := odMoveToEnd (odMoveToEnd p.cache k) k }
          else .blocked
      | none =>
          let c1 := odSet p.cache k { o with lock := some t }
          .ok o.obj { p with cache := odMoveToEnd (odMoveToEnd c1 k) k }

/-- The `_FaissPool.unload_vector_store` operation (faiss_cache.py): `if cache
:= self.get(kb_name): self.pop(kb_name)`.  Returns `none` when `get` blocks
(entry still loading); otherwise the resulting pool.  Neither branch touches
the per-object lock of the removed entry. -/
def CachePool.unload_vector_store {K V : Type} [DecidableEq K]
    (p : CachePool K V) (k : K) : Option (CachePool K V) :=
  match p.get k with
  | .absent => some p
  | .blocked => none
  | .found _ => some (p.pop (some k)).2

/-- The `CachePool.keys` operation (base.py): `list(self._cache.keys())`. -/
def CachePool.keys {K V : Type} (p : CachePool K V) : List K :=
  p.cache.map Prod.fst

/-- One public pool operation, for stating invariants over arbitrary
operation sequences: insertion (`set`), keyed removal (`pop(key)`), front
removal (`pop(None)`), lookup (`get`), locked access (`acquire`, by thread
`t`), and `unload_vector_store`. -/
inductive PoolOp (K V : Type) where
  | setOp (k : K) (o : ThreadSafeObject V)
  | popKeyOp (k : K)
  | popFrontOp
  | getOp (k : K)
  | acquireOp (k : K) (t : Nat)
  | unloadOp (k : K)

/-- The pool state after one operation (for `get`, and for an `acquire` or
`unload` that raises or blocks, the pool is unchanged). -/
def applyOp {K V : Type} [DecidableEq K] (p : CachePool K V) :
    PoolOp K V → CachePool K V
  | .setOp k o => p.set k o
  | .popKeyOp k => (p.pop (some k)).2
  | .popFrontOp => (p.pop none).2
  | .getOp _ => p
  | .acquireOp k t =>
      match p.acquire k t with
      | .ok _ p' => p'
      | _ => p
  | .unloadOp k => (p.unload_vector_store k).getD p

/-- The pool state after a sequence of operations. -/
def runOps {K V : Type} [DecidableEq K] (p : CachePool K V)
    (ops : List (PoolOp K V)) : CachePool K V :=
  ops.foldl applyOp p

/-- A document of the docstore (`langchain.schema.Document`): only the page
content matters to the modelled claims. -/
structure Document where
  page_content : String
  deriving DecidableEq, Repr

/-- A FAISS vector store, reduced to its docstore `_dict` (an id-to-document
map): the only observable the claims use is the set of stored documents, via
`len(self._obj.docstore._dict)`.  Ids are modelled as naturals. -/
structure FAISS where
  docstore : List (Nat × Document)
  deriving DecidableEq, Repr

/-- The `FAISS.from_documents` constructor, reduced to the docstore it
produces: one binding per input document, with fresh ids. -/
def FAISS.from_documents (docs : List Document) : FAISS :=
  { docstore := docs.enum }

/-- The `FAISS.delete(ids)` operation on the docstore: removes every binding
whose id is listed. -/
def FAISS.delete (vs : FAISS) (ids : List Nat) : FAISS :=
  { docstore := vs.docstore.filter (fun b => ¬ ids.contains b.1) }

/-- The document count of a store, as in `ThreadSafeFaiss.docs_count`
(faiss_cache.py): `len(self._obj.docstore._dict)`. -/
def FAISS.docs_count (vs : FAISS) : Nat :=
  vs.docstore.length

/-- Modelled from the spec: the constant `EMBEDDING_MODEL` comes from the
`configs` package, which is not part of the provided sources; the spec treats
it as an externally configured model identifier whose concrete value is
irrelevant to the pool's behaviour.  It is fixed here as an arbitrary
string. -/
def EMBEDDING_MODEL : String := "default-embed-model"

/-- Modelled from the spec: `embedding_device()` from `server/utils.py` is not
part of the provided sources; the spec describes it as the globally
configured embedding device, a value determined by global configuration
alone (the function takes no arguments).  It is fixed here as an arbitrary
string. -/
def embedding_device : String := "configured-device"

/-- Modelled from the spec: `get_vs_path` from
`server/knowledge_base/utils.py` is not part of the provided sources; the
spec describes a per-knowledge-base directory (the log line in
`KBFaissPool.load_vector_store` shows it as `kb_name/vector_store/
vector_name`) whose index-file existence is the signal distinguishing "load
existing" from "create new". -/
def get_vs_path (kb_name vector_name : String) : String :=
  kb_name ++ "/vector_store/" ++ vector_name

/-- The on-disk state seen by `KBFaissPool.load_vector_store`: a map from a
vector-store path to the persisted store.  Presence of a binding models
`os.path.isfile(os.path.join(vs_path, "index.faiss"))`; `save_local`
overwrites the binding. -/
abbrev Disk : Type := List (String × FAISS)

/-- The `_FaissPool.new_vector_store` constructor (faiss_cache.py): build a
store from the single placeholder document `"init"`, then delete every id it
contains, leaving an empty store. -/
def new_vector_store : FAISS :=
  let doc : Document := { page_content := "init" }
  let vector_store := FAISS.from_documents [doc]
  let ids := vector_store.docstore.map Prod.fst
  vector_store.delete ids

/-- The sequential outcome of `KBFaissPool.load_vector_store`
(faiss_cache.py): the caller blocks on an entry that will never load, or a
`RuntimeError` ("knowledge base ... not exist.") propagates, or the entry is
returned.  The pool and disk after the call are carried along: on the error
path the placeholder inserted before the failure stays in the pool with its
readiness event unset, exactly as in the source, where the exception
propagates after `self.set` through the `with item.acquire` block (which
releases only the item lock). -/
inductive LoadVSResult where
  | blocked
  | notFound (msg : String) (pool : CachePool (String × String) FAISS)
      (disk : Disk)
  | ok (item : ThreadSafeObject FAISS)
      (pool : CachePool (String × String) FAISS) (disk : Disk)
  deriving DecidableEq, Repr

/-- The `KBFaissPool.load_vector_store` operation (faiss_cache.py), run by a
single thread `t` with no concurrent activity: take the pool lock, default
`vector_name` to the embedding model, look the key up; on a hit release and
return the cached entry; on a miss insert a placeholder, release the pool
lock inside the placeholder's `acquire`, then either load the persisted
store from disk (when the index file exists), or — when `create` — build an
empty store and persist it, or raise; finally set the payload, open the
readiness event, and return `self.get(key)`. -/
def load_vector_store (pool : CachePool (String × String) FAISS) (disk : Disk)
    (kb_name : String) (vector_name : Option String) (create : Bool)
    (embed_model : String := EMBEDDING_MODEL) (t : Nat := 0) : LoadVSResult :=
  let vn := vector_name.getD embed_model
  let key := (kb_name, vn)
  match pool.get key with
  | .blocked => .blocked
  | .found o => .ok o pool disk
  | .absent =>
      let item : ThreadSafeObject FAISS :=
        { obj := none, loaded := false, lock := some t }
      let pool1 := pool.set key item
      let vs_path := get_vs_path kb_name vn
      match odGet disk vs_path with
      | some vector_store =>
          let item2 : ThreadSafeObject FAISS :=
            { obj := some vector_store, loaded := true, lock := none }
          let pool2 := { pool1 with cache := odSet pool1.cache key item2 }
          .ok item2 pool2 disk
      | none =>
          if create then
            let vector_store := new_vector_store
            let disk1 := odSet disk vs_path vector_store
            let item2 : ThreadSafeObject FAISS :=
              { obj := some vector_store, loaded := true, lock := none }
            let pool2 := { pool1 with cache := odSet pool1.cache key item2 }
            .ok item2 pool2 disk1
          else
            let item1 : ThreadSafeObject FAISS :=
              { obj := none, loaded := false, lock := none }
            let pool2 :=
              { pool1 with cache := odSet pool1.cache key item1 }
            .notFound ("knowledge base " ++ kb_name ++ " not exist.") pool2
              disk

/-- The pool left behind by the Not Found path of
`KBFaissPool.load_vector_store`: the placeholder inserted before the failure,
its readiness event still unset and its lock released by the `with` block the
exception propagated through. -/
def notFoundPool (pool : CachePool (String × String) FAISS)
    (key : String × String) (t : Nat) : CachePool (String × String) FAISS :=
  let item1 : ThreadSafeObject FAISS :=
    { obj := none, loaded := false, lock := none }
  let pool1 := pool.set key { obj := none, loaded := false, lock := some t }
  { pool1 with cache := odSet pool1.cache key item1 }

/-- The sequential outcome of `EmbeddingsPool.load_embeddings` (base.py),
together with the pool left behind and whether the constructor body ran. -/
inductive LoadEmbResult (K V : Type) where
  | blocked
  | ok (handle : Option V) (pool : CachePool K V) (ctorRan : Bool)
  deriving DecidableEq, Repr

/-- The `EmbeddingsPool.load_embeddings` operation (base.py), run by a single
thread with no concurrent activity.  The source sets `model = model or
EMBEDDING_MODEL` and then `device = embedding_device()`: the `device`
argument of the call is discarded and replaced by the globally configured
device before the cache key `(model, device)` is formed.  `build` stands for
the constructor dispatch on the model name (OpenAI / BGE / HuggingFace),
which deterministically produces one embeddings object from the model name
and device. -/
def load_embeddings (build : String → String → Nat)
    (pool : CachePool (String × String) Nat) (model : Option String)
    (device : Option String) : LoadEmbResult (String × String) Nat :=
  let model' := model.getD EMBEDDING_MODEL
  let device' := embedding_device
  let key := (model', device')
  match pool.get key with
  | .blocked => .blocked
  | .found o => .ok o.obj pool false
  | .absent =>
      let item : ThreadSafeObject Nat :=
        { obj := none, loaded := false, lock := some 0 }
      let pool1 := pool.set key item
      let embeddings := build model' device'
      let item2 : ThreadSafeObject Nat :=
        { obj := some embeddings, loaded := true, lock := none }
      let pool2 := { pool1 with cache := odSet pool1.cache key item2 }
      match pool2.get key with
      | .found o => .ok o.obj pool2 true
      | _ => .ok none pool2 true

/-!
An interleaving model of the get-or-create path shared by
`EmbeddingsPool.load_embeddings` (base.py) and
`KBFaissPool.load_vector_store` / `MemoFaissPool.load_vector_store`
(faiss_cache.py), for `n` threads that all request the SAME absent key.

Shared state is the pool-wide reentrant lock `self.atomic`, the single cache
slot for that key, and a counter of completed constructor-body executions.
With a single key the `_check_count` run by `self.set` and the
`move_to_end` run by the placeholder's `acquire` leave the (one-entry)
ordered dictionary unchanged: the pools are configured with `cache_num = 1`
(`embeddings_pool`) or a configured positive bound, and the loop
`while len > num` never fires at length 1, so the slot abstraction is
faithful for this scenario.

Each program point of the source is one atomic transition; a thread at a
program point whose guard is false (lock held, readiness event unset) simply
has no enabled transition, which is how blocking is modelled.
-/

/-- Program counter of one thread executing the get-or-create body. -/
inductive PC where
  | start      -- about to run self.atomic.acquire()
  | check      -- holding atomic; about to evaluate self.get(key)
  | releaseA   -- miss path: placeholder inserted, its lock taken; about to release atomic
  | build      -- about to run the constructor body
  | finish     -- payload set; about to run item.finish_loading()
  | unlock     -- about to leave the `with item.acquire` block (release the item lock)
  | finalGet   -- about to return self.get(key): wait for the event, read the entry
  | waitHit    -- hit path: holding atomic, blocked in wait_for_loading()
  | releaseHit -- hit path: event seen set; about to release atomic
  | done       -- returned
  | raised     -- the constructor raised; the exception propagated out
  deriving DecidableEq, Repr

/-- The cache slot for the requested key: payload, readiness event, and the
per-object lock (holder thread). -/
structure Entry where
  obj : Option Nat
  loaded : Bool
  lock : Option Nat := none
  deriving DecidableEq, Repr

/-- The shared state of the interleaving model: pool-wide lock holder, the
cache slot for the key (`none` = key absent), the number of completed
constructor executions, each thread's program counter and return value. -/
structure SysState (n : Nat) where
  atomic : Option (Fin n)
  entry : Option Entry
  ctorCount : Nat
  pc : Fin n → PC
  res : Fin n → Option Nat

/-- The lock field of an entry held by thread `t` (thread ids recorded as
naturals). -/
def tlock {n : Nat} (t : Fin n) : Option Nat :=
  some t.val

/-- One atomic step of one thread, parametrised by the outcome of the
constructor body: `some v` when the dispatch returns the embeddings /
vector-store handle `v`, `none` when it raises.  Faithful to the source in
that: a placeholder with an unset `threading.Event` is inserted before the
pool lock is released; the constructor runs outside the pool lock; the
payload is set before the event; the hit path waits on the event while still
holding the pool lock (`self.get(key)` is called before `self.atomic.
release()` in the `if not self.get(key)` test); and on a constructor
exception the `with` block releases the item lock and the exception
propagates with the event never set. -/
inductive Step (c : Option Nat) {n : Nat} : SysState n → SysState n → Prop
  | acquireA (s : SysState n) (t : Fin n)
      (hpc : s.pc t = .start) (hat : s.atomic = none) :
      Step c s { s with atomic := some t, pc := Function.update s.pc t .check }
  | checkMiss (s : SysState n) (t : Fin n)
      (hpc : s.pc t = .check) (hat : s.atomic = some t) (he : s.entry = none) :
      Step c s { s with
        entry := some { obj := none, loaded := false, lock := tlock t },
        pc := Function.update s.pc t .releaseA }
  | checkHit (s : SysState n) (t : Fin n) (e : Entry)
      (hpc : s.pc t = .check) (hat : s.atomic = some t)
      (he : s.entry = some e) :
      Step c s { s with pc := Function.update s.pc t .waitHit }
  | releaseAtomic (s : SysState n) (t : Fin n)
      (hpc : s.pc t = .releaseA) (hat : s.atomic = some t) :
      Step c s { s with atomic := none, pc := Function.update s.pc t .build }
  | buildOk (s : SysState n) (t : Fin n) (v : Nat) (e : Entry)
      (hc : c = some v) (hpc : s.pc t = .build) (he : s.entry = some e) :
      Step c s { s with
        entry := some { e with obj := some v },
        ctorCount := s.ctorCount + 1,
        pc := Function.update s.pc t .finish }
  | buildFail (s : SysState n) (t : Fin n) (e : Entry)
      (hc : c = none) (hpc : s.pc t = .build) (he : s.entry = some e) :
      Step c s { s with
        entry := some { e with lock := none },
        pc := Function.update s.pc t .raised }
  | finishLoad (s : SysState n) (t : Fin n) (e : Entry)
      (hpc : s.pc t = .finish) (he : s.entry = some e) :
      Step c s { s with
        entry := some { e with loaded := true },
        pc := Function.update s.pc t .unlock }
  | unlockItem (s : SysState n) (t : Fin n) (e : Entry)
      (hpc : s.pc t = .unlock) (he : s.entry = some e) :
      Step c s { s with
        entry := some { e with lock := none },
        pc := Function.update s.pc t .finalGet }
  | waitDone (s : SysState n) (t : Fin n) (e : Entry)
      (hpc : s.pc t = .waitHit) (hat : s.atomic = some t)
      (he : s.entry = some e) (hl : e.loaded = true) :
      Step c s { s with pc := Function.update s.pc t .releaseHit }
  | releaseHitStep (s : SysState n) (t : Fin n)
      (hpc : s.pc t = .releaseHit) (hat : s.atomic = some t) :
      Step c s { s with
        atomic := none,
        pc := Function.update s.pc t .finalGet }
  | readResult (s : SysState n) (t : Fin n) (e : Entry)
      (hpc : s.pc t = .finalGet) (he : s.entry = some e)
      (hl : e.loaded = true) :
      Step c s { s with
        res := Function.update s.res t e.obj,
        pc := Function.update s.pc t .done }

/-- The initial state: pool lock free, key absent, no constructor run, every
thread about to call the get-or-create operation. -/
def initState (n : Nat) : SysState n :=
  { atomic := none, entry := none, ctorCount := 0,
    pc := fun _ => .start, res := fun _ => none }

/-- The states reachable by interleaving the threads from the initial
state. -/
inductive Reachable (c : Option Nat) {n : Nat} : SysState n → Prop
  | init : Reachable c (initState n)
  | step {s s' : SysState n} : Reachable c s → Step c s s' → Reachable c s'

/-- Program points at which a thread holds the pool-wide lock. -/
def holdsAtomic : PC → Prop
  | .check => True
  | .releaseA => True
  | .waitHit => True
  | .releaseHit => True
  | _ => False

instance (p : PC) : Decidable (holdsAtomic p) := by
  cases p <;> simp [holdsAtomic] <;> infer_instance

/-- Program points of the construction region: between inserting the
placeholder and leaving the `with item.acquire` block. -/
def inRegion : PC → Prop
  | .releaseA => True
  | .build => True
  | .finish => True
  | .unlock => True
  | _ => False

instance (p : PC) : Decidable (inRegion p) := by
  cases p <;> simp [inRegion] <;> infer_instance

/-- The inductive invariant of the interleaving model for a constructor that
returns `v`: the pool lock is held exactly by the thread at a lock-holding
program point; before the placeholder exists only initial program points are
occupied; at most one thread is ever inside the construction region; the
payload is written exactly once, by the completed constructor; the readiness
event is set only once the payload holds the constructed handle; finished
threads returned that handle. -/
structure Inv {n : Nat} (v : Nat) (s : SysState n) : Prop where
  lock_pc : ∀ t, holdsAtomic (s.pc t) → s.atomic = some t
  pc_lock : ∀ t, s.atomic = some t → holdsAtomic (s.pc t)
  entry_none : s.entry = none →
      s.ctorCount = 0 ∧ ∀ t, s.pc t = .start ∨ s.pc t = .check
  region_uniq : ∀ t t', inRegion (s.pc t) → inRegion (s.pc t') → t = t'
  entry_ctor : ∀ e, s.entry = some e →
      (e.obj = none ∧ s.ctorCount = 0) ∨ (e.obj = some v ∧ s.ctorCount = 1)
  loaded_obj : ∀ e, s.entry = some e → e.loaded = true → e.obj = some v
  pre_build : ∀ t, s.pc t = .releaseA ∨ s.pc t = .build →
      ∀ e, s.entry = some e → e.obj = none ∧ e.loaded = false
  post_build : ∀ t, s.pc t = .finish ∨ s.pc t = .unlock →
      ∀ e, s.entry = some e → e.obj = some v
  done_res : ∀ t, s.pc t = .done →
      s.res t = some v ∧ ∃ e, s.entry = some e ∧ e.loaded = true
  no_raise : ∀ t, s.pc t ≠ .raised

/-- Stage 0 of a two-thread interleaved run: both threads about to enter. -/
def w0 : SysState 2 := initState 2

/-- Stage 1: thread 0 takes the pool lock. -/
def w1 : SysState 2 :=
  { w0 with atomic := some 0, pc := Function.update w0.pc 0 .check }

/-- Stage 2: thread 0 sees the key absent and inserts the placeholder. -/
def w2 : SysState 2 :=
  { w1 with
    entry := some { obj := none, loaded := false, lock := tlock (0 : Fin 2) },
    pc := Function.update w1.pc 0 .releaseA }

/-- Stage 3: thread 0 releases the pool lock before constructing. -/
def w3 : SysState 2 :=
  { w2 with atomic := none, pc := Function.update w2.pc 0 .build }

/-- Stage 4: thread 1 takes the pool lock while thread 0 constructs. -/
def w4 : SysState 2 :=
  { w3 with atomic := some 1, pc := Function.update w3.pc 1 .check }

/-- Stage 5: thread 1 sees the placeholder and waits on the readiness
event. -/
def w5 : SysState 2 :=
  { w4 with pc := Function.update w4.pc 1 .waitHit }

/-- Stage 6: thread 0 finishes the constructor body and stores handle 5. -/
def w6 : SysState 2 :=
  { w5 with
    entry := some { obj := some 5, loaded := false, lock := tlock (0 : Fin 2) },
    ctorCount := w5.ctorCount + 1,
    pc := Function.update w5.pc 0 .finish }

/-- Stage 7: thread 0 opens the readiness event. -/
def w7 : SysState 2 :=
  { w6 with
    entry := some { obj := some 5, loaded := true, lock := tlock (0 : Fin 2) },
    pc := Function.update w6.pc 0 .unlock }

/-- Stage 8: thread 1 sees the event open. -/
def w8 : SysState 2 :=
  { w7 with pc := Function.update w7.pc 1 .releaseHit }

/-- Stage 9: thread 1 releases the pool lock. -/
def w9 : SysState 2 :=
  { w8 with atomic := none, pc := Function.update w8.pc 1 .finalGet }

/-- Stage 10: thread 0 leaves the placeholder's acquire block. -/
def w10 : SysState 2 :=
  { w9 with
    entry := some { obj := some 5, loaded := true, lock := none },
    pc := Function.update w9.pc 0 .finalGet }

/-- Stage 11: thread 0 reads the cached entry and returns. -/
def w11 : SysState 2 :=
  { w10 with
    res := Function.update w10.res 0 (some 5),
    pc := Function.update w10.pc 0 .done }

/-- Stage 12: thread 1 reads the cached entry and returns. -/
def w12 : SysState 2 :=
  { w11 with
    res := Function.update w11.res 1 (some 5),
    pc := Function.update w11.pc 1 .done }

/-- Stage 0 of a two-thread run whose constructor raises. -/
def g0 : SysState 2 := initState 2

/-- Stage 1: thread 0 takes the pool lock. -/
def g1 : SysState 2 :=
  { g0 with atomic := some 0, pc := Function.update g0.pc 0 .check }

/-- Stage 2: thread 0 sees the key absent and inserts the placeholder. -/
def g2 : SysState 2 :=
  { g1 with
    entry := some { obj := none, loaded := false, lock := tlock (0 : Fin 2) },
    pc := Function.update g1.pc 0 .releaseA }

/-- Stage 3: thread 0 releases the pool lock before constructing. -/
def g3 : SysState 2 :=
  { g2 with atomic := none, pc := Function.update g2.pc 0 .build }

/-- Stage 4: thread 1 takes the pool lock while thread 0 constructs. -/
def g4 : SysState 2 :=
  { g3 with atomic := some 1, pc := Function.update g3.pc 1 .check }

/-- Stage 5: thread 1 sees the placeholder and waits on the readiness
event, still holding the pool lock. -/
def g5 : SysState 2 :=
  { g4 with pc := Function.update g4.pc 1 .waitHit }

/-- Stage 6: the constructor of thread 0 raises; the `with` block releases
the item lock, the exception propagates, and the readiness event is never
set. -/
def g6 : SysState 2 :=
  { g5 with
    entry := some { obj := none, loaded := false, lock := none },
    pc := Function.update g5.pc 0 .raised }

/-- Demonstration pool for C2: capacity 1, holding a single entry whose
readiness event is still unset (an entry under construction). -/
def pc2 : CachePool Nat Nat :=
  { cache_num := 1,
    cache := [(1, { obj := none, loaded := false, lock := some 7 })] }

/-- Demonstration pool for C5: capacity 2 and two fully loaded entries,
key 1 at the least-recently-used end, key 2 at the most-recently-used end. -/
def pc5 : CachePool Nat Nat :=
  { cache_num := 2,
    cache := [(1, { obj := some 11, loaded := true, lock := none }),
              (2, { obj := some 12, loaded := true, lock := none })] }

/-- The pool left behind by `pc5.acquire 1 7`: key 1 locked by thread 7 and
moved to the most-recently-used end. -/
def pc5after : CachePool Nat Nat :=
  { cache_num := 2,
    cache := [(2, { obj := some 12, loaded := true, lock := none }),
              (1, { obj := some 11, loaded := true, lock := some 7 })] }

/-- Demonstration pool for C8: a single loaded entry whose per-object lock is
held by thread 7 (a concurrent user mid-operation). -/
def pc8 : CachePool Nat Nat :=
  { cache_num := -1,
    cache := [(1, { obj := some 11, loaded := true, lock := some 7 })] }

/-- The invariant holds initially. -/
theorem inv_init (n v : Nat) : Inv v (initState n) := by
  refine ⟨?_, ?_, ?_, ?_, ?_, ?_, ?_, ?_, ?_, ?_⟩ <;>
    simp [initState, holdsAtomic, inRegion]

/-- The invariant is preserved by every step of every thread. -/
theorem inv_step {n v : Nat} {s s' : SysState n} (hs : Inv v s)
    (h : Step (some v) s s') : Inv v s' := by
  cases h with
  | acquireA t hpc hat =>
      refine ⟨?_, ?_, ?_, ?_, ?_, ?_, ?_, ?_, ?_, ?_⟩
      · intro u hu
        by_cases hut : u = t
        · simp [hut]
        · simp only [Function.update_apply, if_neg hut] at hu
          have h2 := hs.lock_pc u hu
          rw [hat] at h2
          exact absurd h2 (by simp)
      · intro u hu
        simp at hu
        subst hu
        simp [Function.update_apply, holdsAtomic]
      · intro he
        obtain ⟨h1, h2⟩ := hs.entry_none he
        refine ⟨h1, fun u => ?_⟩
        by_cases hut : u = t
        · simp [hut, Function.update_apply]
        · simp only [Function.update_apply, if_neg hut]
          exact h2 u
      · intro u u' hu hu'
        by_cases hut : u = t <;> by_cases hut' : u' = t
        · simp [hut, hut']
        · simp only [hut, Function.update_apply, if_pos rfl] at hu
          simp [inRegion] at hu
        · simp only [hut', Function.update_apply, if_pos rfl] at hu'
          simp [inRegion] at hu'
        · simp only [Function.update_apply, if_neg hut] at hu
          simp only [Function.update_apply, if_neg hut'] at hu'
          exact hs.region_uniq u u' hu hu'
      · exact hs.entry_ctor
      · exact hs.loaded_obj
      · intro u hu
        by_cases hut : u = t
        · subst hut
          simp [Function.update_apply] at hu
        · simp only [Function.update_apply, if_neg hut] at hu
          exact hs.pre_build u hu
      · intro u hu
        by_cases hut : u = t
        · subst hut
          simp [Function.update_apply] at hu
        · simp only [Function.update_apply, if_neg hut] at hu
          exact hs.post_build u hu
      · intro u hu
        by_cases hut : u = t
        · subst hut
          simp [Function.update_apply] at hu
        · simp only [Function.update_apply, if_neg hut] at hu
          exact hs.done_res u hu
      · intro u
        by_cases hut : u = t
        · subst hut
          simp [Function.update_apply]
        · simp only [Function.update_apply, if_neg hut]
          exact hs.no_raise u
  | checkMiss t hpc hat he =>
      have hinit := hs.entry_none he
      refine ⟨?_, ?_, ?_, ?_, ?_, ?_, ?_, ?_, ?_, ?_⟩
      · intro u hu
        by_cases hut : u = t
        · subst hut
          exact hat
        · simp only [Function.update_apply, if_neg hut] at hu
          exact hs.lock_pc u hu
      · intro u hu
        rw [hat] at hu
        simp at hu
        subst hu
        simp [Function.update_apply, holdsAtomic]
      · intro hcon
        simp at hcon
      · intro u u' hu hu'
        by_cases hut : u = t <;> by_cases hut' : u' = t
        · simp [hut, hut']
        · simp only [Function.update_apply, if_neg hut'] at hu'
          rcases hinit.2 u' with h' | h' <;> rw [h'] at hu' <;>
            simp [inRegion] at hu'
        · simp only [Function.update_apply, if_neg hut] at hu
          rcases hinit.2 u with h' | h' <;> rw [h'] at hu <;>
            simp [inRegion] at hu
        · simp only [Function.update_apply, if_neg hut] at hu
          rcases hinit.2 u with h' | h' <;> rw [h'] at hu <;>
            simp [inRegion] at hu
      · intro e hecon
        simp at hecon
        subst hecon
        exact Or.inl ⟨rfl, hinit.1⟩
      · intro e hecon
        simp at hecon
        subst hecon
        simp
      · intro u hu e hecon
        simp at hecon
        subst hecon
        simp
      · intro u hu
        by_cases hut : u = t
        · subst hut
          simp [Function.update_apply] at hu
        · simp only [Function.update_apply, if_neg hut] at hu
          rcases hinit.2 u with h' | h' <;> rw [h'] at hu <;> simp at hu
      · intro u hu
        by_cases hut : u = t
        · subst hut
          simp [Function.update_apply] at hu
        · simp only [Function.update_apply, if_neg hut] at hu
          rcases hinit.2 u with h' | h' <;> rw [h'] at hu <;> simp at hu
      · intro u
        by_cases hut : u = t
        · subst hut
          simp [Function.update_apply]
        · simp only [Function.update_apply, if_neg hut]
          exact hs.no_raise u
  | checkHit t e hpc hat he =>
      refine ⟨?_, ?_, ?_, ?_, hs.entry_ctor, hs.loaded_obj, ?_, ?_, ?_, ?_⟩
      · intro u hu
        by_cases hut : u = t
        · subst hut
          exact hat
        · simp only [Function.update_apply, if_neg hut] at hu
          exact hs.lock_pc u hu
      · intro u hu
        rw [hat] at hu
        simp at hu
        subst hu
        simp [Function.update_apply, holdsAtomic]
      · intro hcon
        rw [he] at hcon
        simp at hcon
      · intro u u' hu hu'
        by_cases hut : u = t
        · subst hut
          simp [Function.update_apply, inRegion] at hu
        · by_cases hut' : u' = t
          · subst hut'
            simp [Function.update_apply, inRegion] at hu'
          · simp only [Function.update_apply, if_neg hut] at hu
            simp only [Function.update_apply, if_neg hut'] at hu'
            exact hs.region_uniq u u' hu hu'
      · intro u hu
        by_cases hut : u = t
        · subst hut
          simp [Function.update_apply] at hu
        · simp only [Function.update_apply, if_neg hut] at hu
          exact hs.pre_build u hu
      · intro u hu
        by_cases hut : u = t
        · subst hut
          simp [Function.update_apply] at hu
        · simp only [Function.update_apply, if_neg hut] at hu
          exact hs.post_build u hu
      · intro u hu
        by_cases hut : u = t
        · subst hut
          simp [Function.update_apply] at hu
        · simp only [Function.update_apply, if_neg hut] at hu
          exact hs.done_res u hu
      · intro u
        by_cases hut : u = t
        · subst hut
          simp [Function.update_apply]
        · simp only [Function.update_apply, if_neg hut]
          exact hs.no_raise u
  | releaseAtomic t hpc hat =>
      refine ⟨?_, ?_, ?_, ?_, hs.entry_ctor, hs.loaded_obj, ?_, ?_, ?_, ?_⟩
      · intro u hu
        by_cases hut : u = t
        · subst hut
          simp [Function.update_apply, holdsAtomic] at hu
        · simp only [Function.update_apply, if_neg hut] at hu
          have := hs.lock_pc u hu
          rw [hat] at this
          simp at this
          exact absurd this.symm hut
      · intro u hu
        simp at hu
      · intro hcon
        obtain ⟨h1, h2⟩ := hs.entry_none hcon
        rcases h2 t with h' | h' <;> rw [hpc] at h' <;> simp at h'
      · intro u u' hu hu'
        have key : ∀ w, inRegion ((Function.update s.pc t PC.build) w) →
            inRegion (s.pc w) := by
          intro w hw
          by_cases hwt : w = t
          · subst hwt
            rw [hpc]
            simp [inRegion]
          · simpa only [Function.update_apply, if_neg hwt] using hw
        exact hs.region_uniq u u' (key u hu) (key u' hu')
      · intro u hu
        by_cases hut : u = t
        · subst hut
          exact hs.pre_build u (Or.inl hpc)
        · simp only [Function.update_apply, if_neg hut] at hu
          exact hs.pre_build u hu
      · intro u hu
        by_cases hut : u = t
        · subst hut
          simp [Function.update_apply] at hu
        · simp only [Function.update_apply, if_neg hut] at hu
          exact hs.post_build u hu
      · intro u hu
        by_cases hut : u = t
        · subst hut
          simp [Function.update_apply] at hu
        · simp only [Function.update_apply, if_neg hut] at hu
          exact hs.done_res u hu
      · intro u
        by_cases hut : u = t
        · subst hut
          simp [Function.update_apply]
        · simp only [Function.update_apply, if_neg hut]
          exact hs.no_raise u
  | buildOk t v' e hc hpc he =>
      have hv : v' = v := by
        simp at hc
        exact hc.symm
      subst hv
      have hobj0 := hs.pre_build t (Or.inr hpc) e he
      have hcc0 : s.ctorCount = 0 := by
        rcases hs.entry_ctor e he with ⟨_, h0⟩ | ⟨hv, _⟩
        · exact h0
        · rw [hobj0.1] at hv
          simp at hv
      refine ⟨?_, ?_, ?_, ?_, ?_, ?_, ?_, ?_, ?_, ?_⟩
      · intro u hu
        by_cases hut : u = t
        · subst hut
          simp [Function.update_apply, holdsAtomic] at hu
        · simp only [Function.update_apply, if_neg hut] at hu
          exact hs.lock_pc u hu
      · intro u hu
        have := hs.pc_lock u hu
        by_cases hut : u = t
        · subst hut
          rw [hpc] at this
          simp [holdsAtomic] at this
        · simp only [Function.update_apply, if_neg hut]
          exact this
      · intro hcon
        simp at hcon
      · intro u u' hu hu'
        have key : ∀ w, inRegion ((Function.update s.pc t PC.finish) w) →
            inRegion (s.pc w) := by
          intro w hw
          by_cases hwt : w = t
          · subst hwt
            rw [hpc]
            simp [inRegion]
          · simpa only [Function.update_apply, if_neg hwt] using hw
        exact hs.region_uniq u u' (key u hu) (key u' hu')
      · intro e' he'
        simp at he'
        subst he'
        right
        constructor
        · rfl
        · rw [hcc0]
      · intro e' he' hl
        simp at he'
        subst he'
        rfl
      · intro u hu e' he'
        exfalso
        by_cases hut : u = t
        · subst hut
          simp [Function.update_apply] at hu
        · simp only [Function.update_apply, if_neg hut] at hu
          refine hut (hs.region_uniq u t ?_ ?_)
          · rcases hu with h' | h' <;> rw [h'] <;> simp [inRegion]
          · rw [hpc]
            simp [inRegion]
      · intro u hu e' he'
        simp at he'
        subst he'
        rfl
      · intro u hu
        by_cases hut : u = t
        · subst hut
          simp [Function.update_apply] at hu
        · simp only [Function.update_apply, if_neg hut] at hu
          obtain ⟨hres, e0, he0, hl0⟩ := hs.done_res u hu
          rw [he] at he0
          simp at he0
          subst he0
          rw [hobj0.2] at hl0
          simp at hl0
      · intro u
        by_cases hut : u = t
        · subst hut
          simp [Function.update_apply]
        · simp only [Function.update_apply, if_neg hut]
          exact hs.no_raise u
  | buildFail t e hc hpc he =>
      simp at hc
  | finishLoad t e hpc he =>
      have hobj := hs.post_build t (Or.inl hpc) e he
      refine ⟨?_, ?_, ?_, ?_, ?_, ?_, ?_, ?_, ?_, ?_⟩
      · intro u hu
        by_cases hut : u = t
        · subst hut
          simp [Function.update_apply, holdsAtomic] at hu
        · simp only [Function.update_apply, if_neg hut] at hu
          exact hs.lock_pc u hu
      · intro u hu
        have := hs.pc_lock u hu
        by_cases hut : u = t
        · subst hut
          rw [hpc] at this
          simp [holdsAtomic] at this
        · simp only [Function.update_apply, if_neg hut]
          exact this
      · intro hcon
        simp at hcon
      · intro u u' hu hu'
        have key : ∀ w, inRegion ((Function.update s.pc t PC.unlock) w) →
            inRegion (s.pc w) := by
          intro w hw
          by_cases hwt : w = t
          · subst hwt
            rw [hpc]
            simp [inRegion]
          · simpa only [Function.update_apply, if_neg hwt] using hw
        exact hs.region_uniq u u' (key u hu) (key u' hu')
      · intro e' he'
        simp at he'
        subst he'
        rcases hs.entry_ctor e he with ⟨h1, _⟩ | ⟨h1, h2⟩
        · rw [hobj] at h1
          simp at h1
        · exact Or.inr ⟨h1, h2⟩
      · intro e' he' hl
        simp at he'
        subst he'
        exact hobj
      · intro u hu e' he'
        exfalso
        have hut : u ≠ t := by
          intro hcon
          subst hcon
          simp [Function.update_apply] at hu
        simp only [Function.update_apply, if_neg hut] at hu
        have := hs.region_uniq u t
          (by rcases hu with h' | h' <;> rw [h'] <;> simp [inRegion])
          (by rw [hpc]; simp [inRegion])
        exact hut this
      · intro u hu e' he'
        simp at he'
        subst he'
        exact hobj
      · intro u hu
        by_cases hut : u = t
        · subst hut
          simp [Function.update_apply] at hu
        · simp only [Function.update_apply, if_neg hut] at hu
          obtain ⟨hres, e0, he0, hl0⟩ := hs.done_res u hu
          refine ⟨hres, ?_⟩
          rw [he] at he0
          simp at he0
          subst he0
          exact ⟨_, rfl, rfl⟩
      · intro u
        by_cases hut : u = t
        · subst hut
          simp [Function.update_apply]
        · simp only [Function.update_apply, if_neg hut]
          exact hs.no_raise u
  | unlockItem t e hpc he =>
      have hobj := hs.post_build t (Or.inr hpc) e he
      refine ⟨?_, ?_, ?_, ?_, ?_, ?_, ?_, ?_, ?_, ?_⟩
      · intro u hu
        by_cases hut : u = t
        · subst hut
          simp [Function.update_apply, holdsAtomic] at hu
        · simp only [Function.update_apply, if_neg hut] at hu
          exact hs.lock_pc u hu
      · intro u hu
        have := hs.pc_lock u hu
        by_cases hut : u = t
        · subst hut
          rw [hpc] at this
          simp [holdsAtomic] at this
        · simp only [Function.update_apply, if_neg hut]
          exact this
      · intro hcon
        simp at hcon
      · intro u u' hu hu'
        have key : ∀ w, inRegion ((Function.update s.pc t PC.finalGet) w) →
            inRegion (s.pc w) := by
          intro w hw
          by_cases hwt : w = t
          · subst hwt
            simp [Function.update_apply, inRegion] at hw
          · simpa only [Function.update_apply, if_neg hwt] using hw
        exact hs.region_uniq u u' (key u hu) (key u' hu')
      · intro e' he'
        simp at he'
        subst he'
        rcases hs.entry_ctor e he with ⟨h1, _⟩ | ⟨h1, h2⟩
        · rw [hobj] at h1
          simp at h1
        · exact Or.inr ⟨h1, h2⟩
      · intro e' he' hl
        simp at he'
        subst he'
        exact hobj
      · intro u hu e' he'
        exfalso
        have hut : u ≠ t := by
          intro hcon
          subst hcon
          simp [Function.update_apply] at hu
        simp only [Function.update_apply, if_neg hut] at hu
        have := hs.region_uniq u t
          (by rcases hu with h' | h' <;> rw [h'] <;> simp [inRegion])
          (by rw [hpc]; simp [inRegion])
        exact hut this
      · intro u hu e' he'
        exfalso
        have hut : u ≠ t := by
          intro hcon
          subst hcon
          simp [Function.update_apply] at hu
        simp only [Function.update_apply, if_neg hut] at hu
        have := hs.region_uniq u t
          (by rcases hu with h' | h' <;> rw [h'] <;> simp [inRegion])
          (by rw [hpc]; simp [inRegion])
        exact hut this
      · intro u hu
        by_cases hut : u = t
        · subst hut
          simp [Function.update_apply] at hu
        · simp only [Function.update_apply, if_neg hut] at hu
          obtain ⟨hres, e0, he0, hl0⟩ := hs.done_res u hu
          refine ⟨hres, ?_⟩
          rw [he] at he0
          simp at he0
          subst he0
          exact ⟨_, rfl, hl0⟩
      · intro u
        by_cases hut : u = t
        · subst hut
          simp [Function.update_apply]
        · simp only [Function.update_apply, if_neg hut]
          exact hs.no_raise u
  | waitDone t e hpc hat he hl =>
      refine ⟨?_, ?_, ?_, ?_, hs.entry_ctor, hs.loaded_obj, ?_, ?_, ?_, ?_⟩
      · intro u hu
        by_cases hut : u = t
        · subst hut
          exact hat
        · simp only [Function.update_apply, if_neg hut] at hu
          exact hs.lock_pc u hu
      · intro u hu
        rw [hat] at hu
        simp at hu
        subst hu
        simp [Function.update_apply, holdsAtomic]
      · intro hcon
        rw [he] at hcon
        simp at hcon
      · intro u u' hu hu'
        have key : ∀ w, inRegion ((Function.update s.pc t PC.releaseHit) w) →
            inRegion (s.pc w) := by
          intro w hw
          by_cases hwt : w = t
          · subst hwt
            simp [Function.update_apply, inRegion] at hw
          · simpa only [Function.update_apply, if_neg hwt] using hw
        exact hs.region_uniq u u' (key u hu) (key u' hu')
      · intro u hu
        by_cases hut : u = t
        · subst hut
          simp [Function.update_apply] at hu
        · simp only [Function.update_apply, if_neg hut] at hu
          exact hs.pre_build u hu
      · intro u hu
        by_cases hut : u = t
        · subst hut
          simp [Function.update_apply] at hu
        · simp only [Function.update_apply, if_neg hut] at hu
          exact hs.post_build u hu
      · intro u hu
        by_cases hut : u = t
        · subst hut
          simp [Function.update_apply] at hu
        · simp only [Function.update_apply, if_neg hut] at hu
          exact hs.done_res u hu
      · intro u
        by_cases hut : u = t
        · subst hut
          simp [Function.update_apply]
        · simp only [Function.update_apply, if_neg hut]
          exact hs.no_raise u
  | releaseHitStep t hpc hat =>
      refine ⟨?_, ?_, ?_, ?_, hs.entry_ctor, hs.loaded_obj, ?_, ?_, ?_, ?_⟩
      · intro u hu
        by_cases hut : u = t
        · subst hut
          simp [Function.update_apply, holdsAtomic] at hu
        · simp only [Function.update_apply, if_neg hut] at hu
          have := hs.lock_pc u hu
          rw [hat] at this
          simp at this
          exact absurd this.symm hut
      · intro u hu
        simp at hu
      · intro hcon
        obtain ⟨h1, h2⟩ := hs.entry_none hcon
        rcases h2 t with h' | h' <;> rw [hpc] at h' <;> simp at h'
      · intro u u' hu hu'
        have key : ∀ w, inRegion ((Function.update s.pc t PC.finalGet) w) →
            inRegion (s.pc w) := by
          intro w hw
          by_cases hwt : w = t
          · subst hwt
            simp [Function.update_apply, inRegion] at hw
          · simpa only [Function.update_apply, if_neg hwt] using hw
        exact hs.region_uniq u u' (key u hu) (key u' hu')
      · intro u hu
        by_cases hut : u = t
        · subst hut
          simp [Function.update_apply] at hu
        · simp only [Function.update_apply, if_neg hut] at hu
          exact hs.pre_build u hu
      · intro u hu
        by_cases hut : u = t
        · subst hut
          simp [Function.update_apply] at hu
        · simp only [Function.update_apply, if_neg hut] at hu
          exact hs.post_build u hu
      · intro u hu
        by_cases hut : u = t
        · subst hut
          simp [Function.update_apply] at hu
        · simp only [Function.update_apply, if_neg hut] at hu
          exact hs.done_res u hu
      · intro u
        by_cases hut : u = t
        · subst hut
          simp [Function.update_apply]
        · simp only [Function.update_apply, if_neg hut]
          exact hs.no_raise u
  | readResult t e hpc he hl =>
      refine ⟨?_, ?_, ?_, ?_, hs.entry_ctor, hs.loaded_obj, ?_, ?_, ?_, ?_⟩
      · intro u hu
        by_cases hut : u = t
        · subst hut
          simp [Function.update_apply, holdsAtomic] at hu
        · simp only [Function.update_apply, if_neg hut] at hu
          exact hs.lock_pc u hu
      · intro u hu
        have := hs.pc_lock u hu
        by_cases hut : u = t
        · subst hut
          rw [hpc] at this
          simp [holdsAtomic] at this
        · simp only [Function.update_apply, if_neg hut]
          exact this
      · intro hcon
        rw [he] at hcon
        simp at hcon
      · intro u u' hu hu'
        have key : ∀ w, inRegion ((Function.update s.pc t PC.done) w) →
            inRegion (s.pc w) := by
          intro w hw
          by_cases hwt : w = t
          · subst hwt
            simp [Function.update_apply, inRegion] at hw
          · simpa only [Function.update_apply, if_neg hwt] using hw
        exact hs.region_uniq u u' (key u hu) (key u' hu')
      · intro u hu
        by_cases hut : u = t
        · subst hut
          simp [Function.update_apply] at hu
        · simp only [Function.update_apply, if_neg hut] at hu
          exact hs.pre_build u hu
      · intro u hu
        by_cases hut : u = t
        · subst hut
          simp [Function.update_apply] at hu
        · simp only [Function.update_apply, if_neg hut] at hu
          exact hs.post_build u hu
      · intro u hu
        by_cases hut : u = t
        · subst hut
          refine ⟨?_, e, he, hl⟩
          simp [Function.update_apply]
          exact hs.loaded_obj e he hl
        · simp only [Function.update_apply, if_neg hut] at hu
          obtain ⟨hres, hex⟩ := hs.done_res u hu
          refine ⟨?_, hex⟩
          simp only [Function.update_apply, if_neg hut]
          exact hres
      · intro u
        by_cases hut : u = t
        · subst hut
          simp [Function.update_apply]
        · simp only [Function.update_apply, if_neg hut]
          exact hs.no_raise u

/-- Every reachable state of the successful-constructor system satisfies the
invariant. -/
theorem inv_reachable {n v : Nat} {s : SysState n}
    (h : Reachable (some v) s) : Inv v s := by
  induction h with
  | init => exact inv_init n v
  | step _ hstep ih => exact inv_step ih hstep

/-- C1: in the interleaving model of the get-or-create operation
(`EmbeddingsPool.load_embeddings` / `KBFaissPool.load_vector_store`) run by
`n` threads on the same absent key with a constructor producing handle `v`,
every reachable state has seen at most one completed constructor execution;
and in every reachable state where all `n` threads have returned (with
`n` positive), the constructor body ran exactly once and every thread
returned the same cached handle `v`. -/
theorem c1_construct_once_same_handle (n v : Nat) (s : SysState n)
    (h : Reachable (some v) s) :
    s.ctorCount ≤ 1 ∧
      ((∀ t, s.pc t = PC.done) → 0 < n →
        s.ctorCount = 1 ∧ ∀ t, s.res t = some v) := by
  have hinv := inv_reachable h
  constructor
  · cases he : s.entry with
    | none =>
        have h0 := (hinv.entry_none he).1
        omega
    | some e =>
        rcases hinv.entry_ctor e he with ⟨_, h0⟩ | ⟨_, h1⟩ <;> omega
  · intro hdone hn
    obtain ⟨hres0, e, he, hl⟩ := hinv.done_res ⟨0, hn⟩ (hdone ⟨0, hn⟩)
    have hobj := hinv.loaded_obj e he hl
    have hcc : s.ctorCount = 1 := by
      rcases hinv.entry_ctor e he with ⟨h1, _⟩ | ⟨_, h2⟩
      · rw [h1] at hobj
        simp at hobj
      · exact h2
    exact ⟨hcc, fun t => (hinv.done_res t (hdone t)).1⟩

/-- Witness for C1: along a concrete fully interleaved two-thread run (miss
path of thread 0 racing the hit path of thread 1) the constructor ran
exactly once and both threads returned handle 5. -/
theorem c1_construct_once_same_handle_witness :
    w12.ctorCount = 1 ∧ w12.res 0 = some 5 ∧ w12.res 1 = some 5 := by
  have h0 : Reachable (some 5) w0 := Reachable.init
  have h1 : Reachable (some 5) w1 :=
    h0.step (Step.acquireA _ 0 (by decide) (by decide))
  have h2 : Reachable (some 5) w2 :=
    h1.step (Step.checkMiss _ 0 (by decide) (by decide) (by decide))
  have h3 : Reachable (some 5) w3 :=
    h2.step (Step.releaseAtomic _ 0 (by decide) (by decide))
  have h4 : Reachable (some 5) w4 :=
    h3.step (Step.acquireA _ 1 (by decide) (by decide))
  have h5 : Reachable (some 5) w5 :=
    h4.step (Step.checkHit _ 1
      { obj := none, loaded := false, lock := tlock (0 : Fin 2) }
      (by decide) (by decide) (by decide))
  have h6 : Reachable (some 5) w6 :=
    h5.step (Step.buildOk _ 0 5
      { obj := none, loaded := false, lock := tlock (0 : Fin 2) }
      rfl (by decide) (by decide))
  have h7 : Reachable (some 5) w7 :=
    h6.step (Step.finishLoad _ 0
      { obj := some 5, loaded := false, lock := tlock (0 : Fin 2) }
      (by decide) (by decide))
  have h8 : Reachable (some 5) w8 :=
    h7.step (Step.waitDone _ 1
      { obj := some 5, loaded := true, lock := tlock (0 : Fin 2) }
      (by decide) (by decide) (by decide) (by decide))
  have h9 : Reachable (some 5) w9 :=
    h8.step (Step.releaseHitStep _ 1 (by decide) (by decide))
  have h10 : Reachable (some 5) w10 :=
    h9.step (Step.unlockItem _ 0
      { obj := some 5, loaded := true, lock := tlock (0 : Fin 2) }
      (by decide) (by decide))
  have h11 : Reachable (some 5) w11 :=
    h10.step (Step.readResult _ 0
      { obj := some 5, loaded := true, lock := none }
      (by decide) (by decide) (by decide))
  have h12 : Reachable (some 5) w12 :=
    h11.step (Step.readResult _ 1
      { obj := some 5, loaded := true, lock := none }
      (by decide) (by decide) (by decide))
  have hmain :=
    (c1_construct_once_same_handle 2 5 w12 h12).2 (by decide) (by decide)
  exact ⟨hmain.1, hmain.2 0, hmain.2 1⟩

/-- C4 (divergence witness): when the constructor raises during
get-or-create, the source reaches a state where the failed placeholder is
still cached (payload `None`, readiness event unset) and NO thread has any
enabled transition: the concurrent waiter (thread 1, inside
`wait_for_loading` while holding the pool-wide lock) is blocked forever
instead of being unblocked with the failure, contradicting the claimed
failure semantics. -/
theorem c4_failed_ctor_placeholder_remains_and_waiter_blocks :
    Reachable (none : Option Nat) g6 ∧
    g6.entry = some { obj := none, loaded := false, lock := none } ∧
    g6.pc 1 = PC.waitHit ∧
    ∀ s' : SysState 2, ¬ Step (none : Option Nat) g6 s' := by
  refine ⟨?_, by decide, by decide, ?_⟩
  · have h0 : Reachable (none : Option Nat) g0 := Reachable.init
    have h1 : Reachable (none : Option Nat) g1 :=
      h0.step (Step.acquireA _ 0 (by decide) (by decide))
    have h2 : Reachable (none : Option Nat) g2 :=
      h1.step (Step.checkMiss _ 0 (by decide) (by decide) (by decide))
    have h3 : Reachable (none : Option Nat) g3 :=
      h2.step (Step.releaseAtomic _ 0 (by decide) (by decide))
    have h4 : Reachable (none : Option Nat) g4 :=
      h3.step (Step.acquireA _ 1 (by decide) (by decide))
    have h5 : Reachable (none : Option Nat) g5 :=
      h4.step (Step.checkHit _ 1
        { obj := none, loaded := false, lock := tlock (0 : Fin 2) }
        (by decide) (by decide) (by decide))
    exact h5.step (Step.buildFail _ 0
      { obj := none, loaded := false, lock := tlock (0 : Fin 2) }
      rfl (by decide) (by decide))
  · intro s' hstep
    cases hstep with
    | acquireA t hpc hat =>
        fin_cases t <;> exact absurd hpc (by decide)
    | checkMiss t hpc hat he =>
        fin_cases t <;> exact absurd hpc (by decide)
    | checkHit t e hpc hat he =>
        fin_cases t <;> exact absurd hpc (by decide)
    | releaseAtomic t hpc hat =>
        fin_cases t <;> exact absurd hpc (by decide)
    | buildOk t v e hc hpc he =>
        exact Option.noConfusion hc
    | buildFail t e hc hpc he =>
        fin_cases t <;> exact absurd hpc (by decide)
    | finishLoad t e hpc he =>
        fin_cases t <;> exact absurd hpc (by decide)
    | unlockItem t e hpc he =>
        fin_cases t <;> exact absurd hpc (by decide)
    | waitDone t e hpc hat he hl =>
        fin_cases t
        · exact absurd hpc (by decide)
        · have h6 : g6.entry = some { obj := none, loaded := false, lock := none } := by
            decide
          rw [h6] at he
          have hee := Option.some.inj he
          rw [show e = { obj := none, loaded := false, lock := none } from hee.symm] at hl
          simp at hl
    | releaseHitStep t hpc hat =>
        fin_cases t <;> exact absurd hpc (by decide)
    | readResult t e hpc he hl =>
        fin_cases t <;> exact absurd hpc (by decide)

/-- Unrolling of the eviction loop: it removes exactly the front part of the
list, leaving the last `num` items. -/
theorem checkCountLoop_eq_drop {K V : Type} (num : Nat)
    (l : List (K × ThreadSafeObject V)) :
    checkCountLoop num l = l.drop (l.length - num) := by
  induction l with
  | nil =>
      rw [checkCountLoop]
      simp
  | cons a l ih =>
      rw [checkCountLoop]
      by_cases h : (a :: l).length > num
      · rw [if_pos h]
        simp only [List.tail_cons]
        rw [ih]
        have hlen : (a :: l).length - num = (l.length - num) + 1 := by
          simp only [List.length_cons] at h ⊢
          omega
        rw [hlen]
        rfl
      · rw [if_neg h]
        have hlen : (a :: l).length - num = 0 := by
          simp only [List.length_cons, gt_iff_lt, not_lt] at h ⊢
          omega
        rw [hlen]
        rfl

/-- Assignment of an absent key appends the binding at the end. -/
theorem odSet_absent {K V : Type} [DecidableEq K] {l : List (K × V)} {k : K}
    (v : V) (h : odGet l k = none) : odSet l k v = l ++ [(k, v)] := by
  induction l with
  | nil => rfl
  | cons a l ih =>
      obtain ⟨k', w⟩ := a
      by_cases hk : k' = k
      · rw [odGet, if_pos hk] at h
        exact absurd h (by simp)
      · rw [odGet, if_neg hk] at h
        rw [odSet, if_neg hk, ih h]
        rfl

/-- Lookup after an assignment of the same key finds the assigned value. -/
theorem odGet_odSet_self {K V : Type} [DecidableEq K] (l : List (K × V))
    (k : K) (v : V) : odGet (odSet l k v) k = some v := by
  induction l with
  | nil => simp [odSet, odGet]
  | cons a l ih =>
      obtain ⟨k', w⟩ := a
      by_cases hk : k' = k
      · rw [odSet, if_pos hk, odGet, if_pos rfl]
      · rw [odSet, if_neg hk, odGet, if_neg hk]
        exact ih

/-- A key absent from a list is absent from any suffix obtained by drop. -/
theorem odGet_drop_none {K V : Type} [DecidableEq K] {l : List (K × V)}
    {k : K} (h : odGet l k = none) (q : Nat) : odGet (l.drop q) k = none := by
  induction l generalizing q with
  | nil => simp [odGet]
  | cons a l ih =>
      obtain ⟨k', w⟩ := a
      cases q with
      | zero => exact h
      | succ q =>
          rw [odGet] at h
          by_cases hk : k' = k
          · rw [if_pos hk] at h
            exact absurd h (by simp)
          · rw [if_neg hk] at h
            exact ih h q

/-- Lookup distributes over append when the key is absent on the left. -/
theorem odGet_append_left_none {K V : Type} [DecidableEq K]
    {l1 : List (K × V)} {k : K} (l2 : List (K × V))
    (h : odGet l1 k = none) : odGet (l1 ++ l2) k = odGet l2 k := by
  induction l1 with
  | nil => rfl
  | cons a l ih =>
      obtain ⟨k', w⟩ := a
      rw [odGet] at h
      by_cases hk : k' = k
      · rw [if_pos hk] at h
        exact absurd h (by simp)
      · rw [if_neg hk] at h
        rw [List.cons_append, odGet, if_neg hk]
        exact ih h

/-- A list ending in a binding of `k` has some binding of `k`. -/
theorem odGet_concat_isSome {K V : Type} [DecidableEq K]
    (l : List (K × V)) (k : K) (v : V) :
    ∃ w, odGet (l ++ [(k, v)]) k = some w := by
  induction l with
  | nil => exact ⟨v, by simp [odGet]⟩
  | cons a l ih =>
      obtain ⟨k', w'⟩ := a
      by_cases hk : k' = k
      · exact ⟨w', by rw [List.cons_append, odGet, if_pos hk]⟩
      · obtain ⟨w, hw⟩ := ih
        exact ⟨w, by rw [List.cons_append, odGet, if_neg hk]; exact hw⟩

/-- Updating a present key keeps the length. -/
theorem odSet_present_length {K V : Type} [DecidableEq K]
    {l : List (K × V)} {k : K} {o : V} (v : V) (h : odGet l k = some o) :
    (odSet l k v).length = l.length := by
  induction l with
  | nil => simp [odGet] at h
  | cons a l ih =>
      obtain ⟨k', w⟩ := a
      by_cases hk : k' = k
      · rw [odSet, if_pos hk]
        simp
      · rw [odGet, if_neg hk] at h
        rw [odSet, if_neg hk]
        simp only [List.length_cons]
        rw [ih h]

/-- Removing a present key shortens the list by exactly one. -/
theorem odPopKey_length_present {K V : Type} [DecidableEq K]
    {l : List (K × V)} {k : K} {o : V} (h : odGet l k = some o) :
    (odPopKey l k).length + 1 = l.length := by
  induction l with
  | nil => simp [odGet] at h
  | cons a l ih =>
      obtain ⟨k', w⟩ := a
      by_cases hk : k' = k
      · rw [odPopKey, if_pos hk]
        rfl
      · rw [odGet, if_neg hk] at h
        rw [odPopKey, if_neg hk]
        simp only [List.length_cons]
        rw [ih h]

/-- Removing a key never lengthens the list. -/
theorem odPopKey_length_le {K V : Type} [DecidableEq K]
    (l : List (K × V)) (k : K) : (odPopKey l k).length ≤ l.length := by
  induction l with
  | nil => simp [odPopKey]
  | cons a l ih =>
      obtain ⟨k', w⟩ := a
      by_cases hk : k' = k
      · rw [odPopKey, if_pos hk]
        simp
      · rw [odPopKey, if_neg hk]
        simp only [List.length_cons]
        omega

/-- Moving a key to the end preserves the length. -/
theorem odMoveToEnd_length {K V : Type} [DecidableEq K]
    (l : List (K × V)) (k : K) : (odMoveToEnd l k).length = l.length := by
  rw [odMoveToEnd]
  cases h : odGet l k with
  | none => rfl
  | some v =>
      simp only [List.length_append, List.length_cons, List.length_nil]
      have := odPopKey_length_present h
      omega

/-- After moving a present key to the end, the last key is that key. -/
theorem odMoveToEnd_getLast {K V : Type} [DecidableEq K]
    {l : List (K × V)} {k : K} {v : V} (h : odGet l k = some v) :
    ((odMoveToEnd l k).map Prod.fst).getLast? = some k := by
  rw [odMoveToEnd, h]
  rw [List.map_append]
  exact List.getLast?_concat _

/-- Unfolding of `CachePool.get` success: the key is bound and ready. -/
theorem get_found_iff {K V : Type} [DecidableEq K] (p : CachePool K V)
    (k : K) (o : ThreadSafeObject V) :
    p.get k = .found o ↔ odGet p.cache k = some o ∧ o.loaded = true := by
  rw [CachePool.get]
  constructor
  · intro h
    split at h
    · exact absurd h (by simp)
    · rename_i o' heq
      split at h
      · rename_i hl
        cases h
        exact ⟨heq, hl⟩
      · exact absurd h (by simp)
  · intro ⟨hg, hl⟩
    rw [hg]
    simp [hl]

/-- Moving a bound key to the end twice: the key ends up last and the length
is unchanged. -/
theorem odMoveTwice_facts {K V : Type} [DecidableEq K] {l : List (K × V)}
    {k : K} {w0 : V} (h : odGet l k = some w0) :
    ((odMoveToEnd (odMoveToEnd l k) k).map Prod.fst).getLast? = some k ∧
      (odMoveToEnd (odMoveToEnd l k) k).length = l.length := by
  have h1 : odMoveToEnd l k = odPopKey l k ++ [(k, w0)] := by
    rw [odMoveToEnd, h]
  obtain ⟨w, hw⟩ := odGet_concat_isSome (odPopKey l k) k w0
  have h2 : odGet (odMoveToEnd l k) k = some w := by
    rw [h1]
    exact hw
  refine ⟨odMoveToEnd_getLast h2, ?_⟩
  rw [odMoveToEnd_length, odMoveToEnd_length]

/-- A successful `acquire` leaves the key at the most-recently-used end and
changes neither the entry count nor the capacity bound. -/
theorem acquire_ok_facts {K V : Type} [DecidableEq K] {p : CachePool K V}
    {k : K} {t : Nat} {pay : Option V} {p' : CachePool K V}
    (h : p.acquire k t = .ok pay p') :
    (p'.cache.map Prod.fst).getLast? = some k ∧
      p'.cache.length = p.cache.length ∧ p'.cache_num = p.cache_num := by
  rw [CachePool.acquire] at h
  split at h
  · exact absurd h (by simp)
  · exact absurd h (by simp)
  · rename_i o hg
    have hget := (get_found_iff p k o).mp hg
    split at h
    · rename_i u hlk
      split at h
      · simp only [AcquireResult.ok.injEq] at h
        obtain ⟨hpay, hp'⟩ := h
        subst hp'
        obtain ⟨hlast, hlen⟩ := odMoveTwice_facts hget.1
        exact ⟨hlast, hlen, rfl⟩
      · exact absurd h (by simp)
    · rename_i hlk
      simp only [AcquireResult.ok.injEq] at h
      obtain ⟨hpay, hp'⟩ := h
      subst hp'
      obtain ⟨hlast, hlen⟩ :=
        odMoveTwice_facts
          (odGet_odSet_self p.cache k { o with lock := some t })
      refine ⟨hlast, ?_, rfl⟩
      rw [hlen]
      exact odSet_present_length _ hget.1

/-- Every pool operation leaves the configured capacity bound unchanged. -/
theorem applyOp_cache_num {K V : Type} [DecidableEq K] (p : CachePool K V)
    (op : PoolOp K V) : (applyOp p op).cache_num = p.cache_num := by
  cases op with
  | setOp k o =>
      rw [applyOp, CachePool.set, CachePool._check_count]
      split <;> rfl
  | popKeyOp k => rfl
  | popFrontOp => rfl
  | getOp k => rfl
  | acquireOp k t =>
      cases h : p.acquire k t with
      | ok pay pn =>
          have := (acquire_ok_facts h).2.2
          simp [applyOp, h, this]
      | error => simp [applyOp, h]
      | blocked => simp [applyOp, h]
  | unloadOp k =>
      rw [applyOp, CachePool.unload_vector_store]
      cases h : p.get k with
      | absent => simp
      | blocked => simp
      | found o => simp [CachePool.pop]

/-- After any single pool operation on a pool with a positive capacity bound
and entry count within that bound, the entry count is still within the
bound. -/
theorem applyOp_length_le {K V : Type} [DecidableEq K] {p : CachePool K V}
    (hn : 0 < p.cache_num) (hp : (p.cache.length : Int) ≤ p.cache_num)
    (op : PoolOp K V) :
    ((applyOp p op).cache.length : Int) ≤ p.cache_num := by
  have htn : (p.cache_num.toNat : Int) = p.cache_num :=
    Int.toNat_of_nonneg (le_of_lt hn)
  cases op with
  | setOp k o =>
      rw [applyOp, CachePool.set, CachePool._check_count]
      rw [if_pos (by exact hn)]
      rw [checkCountLoop_eq_drop]
      simp only [List.length_drop]
      omega
  | popKeyOp k =>
      have hle := odPopKey_length_le p.cache k
      simp only [applyOp, CachePool.pop]
      omega
  | popFrontOp =>
      have hle : p.cache.tail.length ≤ p.cache.length := by
        cases p.cache <;> simp
      simp only [applyOp, CachePool.pop]
      omega
  | getOp k => exact hp
  | acquireOp k t =>
      cases h : p.acquire k t with
      | ok pay pn =>
          have hlen := (acquire_ok_facts h).2.1
          simp only [applyOp, h]
          omega
      | error =>
          simp only [applyOp, h]
          exact hp
      | blocked =>
          simp only [applyOp, h]
          exact hp
  | unloadOp k =>
      rw [applyOp, CachePool.unload_vector_store]
      cases h : p.get k with
      | absent =>
          simp only [Option.getD_some]
          exact hp
      | blocked =>
          simp only [Option.getD_none]
          exact hp
      | found o =>
          have hle := odPopKey_length_le p.cache k
          simp only [CachePool.pop, Option.getD_some]
          omega

/-- A sequence of pool operations keeps the entry count within a positive
capacity bound and does not change the bound. -/
theorem runOps_length_le {K V : Type} [DecidableEq K]
    (ops : List (PoolOp K V)) (p : CachePool K V) (hn : 0 < p.cache_num)
    (hp : (p.cache.length : Int) ≤ p.cache_num) :
    ((runOps p ops).cache.length : Int) ≤ p.cache_num ∧
      (runOps p ops).cache_num = p.cache_num := by
  induction ops generalizing p with
  | nil => exact ⟨hp, rfl⟩
  | cons op ops ih =>
      have hnum := applyOp_cache_num p op
      have hlen := applyOp_length_le hn hp op
      have hrec := ih (applyOp p op) (by rw [hnum]; exact hn)
        (by rw [hnum]; exact hlen)
      rw [runOps, List.foldl_cons]
      rw [runOps] at hrec
      rw [hnum] at hrec
      exact hrec

/-- C3: starting from a freshly constructed pool with a positive capacity
bound, no sequence of pool operations ever leaves more entries in the
key-to-object map than the bound allows. -/
theorem c3_capacity_never_exceeded {K V : Type} [DecidableEq K] (n : Int)
    (hn : 0 < n) (ops : List (PoolOp K V)) :
    ((runOps (CachePool.init K V n) ops).cache.length : Int) ≤ n :=
  (runOps_length_le ops (CachePool.init K V n) hn
    (by simp [CachePool.init]; omega)).1

/-- Witness for C3: three insertions into a freshly constructed pool of
capacity 1 leave at most one entry. -/
theorem c3_capacity_never_exceeded_witness :
    0 < (1 : Int) ∧
      ((runOps (CachePool.init Nat Nat 1)
          [PoolOp.setOp 0 { obj := some 10, loaded := true, lock := none },
           PoolOp.setOp 1 { obj := some 11, loaded := true, lock := none },
           PoolOp.setOp 2 { obj := some 12, loaded := true, lock := none }]
        ).cache.length : Int) ≤ 1 :=
  ⟨by decide, c3_capacity_never_exceeded 1 (by decide) _⟩

/-- Insertion of an absent key into a pool with a positive bound: the new
binding goes to the most-recently-used end and the eviction loop drops
exactly the least-recently-used prefix, consulting nothing but positions. -/
theorem set_absent_cache {K V : Type} [DecidableEq K] (p : CachePool K V)
    (k : K) (o : ThreadSafeObject V) (hn : 0 < p.cache_num)
    (habs : odGet p.cache k = none) :
    (p.set k o).cache =
      (p.cache ++ [(k, o)]).drop
        ((p.cache.length + 1) - p.cache_num.toNat) := by
  rw [CachePool.set, CachePool._check_count, if_pos (by exact hn)]
  rw [checkCountLoop_eq_drop]
  rw [odSet_absent o habs]
  simp

/-- Counterexample to C2 as stated: in a capacity-1 pool holding entry 1
whose readiness signal is closed (`loaded = false`), inserting key 2 evicts
entry 1 — the capacity check removed an entry whose readiness signal was NOT
open, so eviction does not restrict itself to fully-loaded entries. -/
theorem c2_counterexample :
    odGet pc2.cache 1 =
      some { obj := none, loaded := false, lock := some 7 } ∧
    (odGet pc2.cache 1).map ThreadSafeObject.loaded = some false ∧
    (pc2.set 2 { obj := none, loaded := false, lock := some 8 }).keys =
      [2] := by
  decide

/-- C2 amended: the capacity check evicts from the least-recently-used end of
the ordering regardless of the readiness signal of the evicted entries (it
drops exactly the LRU prefix of the order), and the entry just inserted
(appended at the most-recently-used end) is never the one evicted. -/
theorem c2_amended_eviction_by_position_only {K V : Type} [DecidableEq K]
    (p : CachePool K V) (k : K) (o : ThreadSafeObject V)
    (hn : 0 < p.cache_num) (habs : odGet p.cache k = none) :
    (p.set k o).cache =
      (p.cache ++ [(k, o)]).drop
        ((p.cache.length + 1) - p.cache_num.toNat) ∧
    (p.set k o).cache.getLast? = some (k, o) := by
  have hmain := set_absent_cache p k o hn habs
  refine ⟨hmain, ?_⟩
  rw [hmain]
  have htn : 1 ≤ p.cache_num.toNat := by omega
  have hq : (p.cache.length + 1) - p.cache_num.toNat ≤ p.cache.length := by
    omega
  rw [List.drop_append_of_le_length hq]
  exact List.getLast?_concat _

/-- Witness for C2 amended: inserting key 2 into the capacity-1 pool `pc2`
drops exactly the one-entry LRU prefix and leaves the new binding last. -/
theorem c2_amended_eviction_by_position_only_witness :
    (pc2.set 2 { obj := none, loaded := false, lock := some 8 }).cache =
      (pc2.cache ++
          [((2 : Nat),
            ({ obj := none, loaded := false, lock := some 8 } :
              ThreadSafeObject Nat))]).drop
        ((pc2.cache.length + 1) - pc2.cache_num.toNat) ∧
    (pc2.set 2 { obj := none, loaded := false, lock := some 8 }).cache.getLast? =
      some (2, { obj := none, loaded := false, lock := some 8 }) :=
  c2_amended_eviction_by_position_only pc2 2
    { obj := none, loaded := false, lock := some 8 } (by decide) (by decide)

/-- Counterexample to C5 as stated: `CachePool.get` returns entry 1 but
reorders nothing — the source calls `self._cache.get(key)`, which does not
move the key.  The distinguishing test is a SINGLE insertion right after the
access: on the capacity-2 pool ordered `[1, 2]`, after `get 1` one `set 3`
inserts one entry and evicts exactly one, the one at the LRU front.  Had
`get` moved key 1 to the MRU end, the order would be `[2, 1]`, the front —
and the evicted entry — would be key 2, and the pool would end as `[1, 3]`
with key 1 still present.  The code leaves the order `[1, 2]`, evicts key 1,
and ends as `[2, 3]` with key 1 gone. -/
theorem c5_counterexample :
    pc5.get 1 = .found { obj := some 11, loaded := true, lock := none } ∧
    (pc5.set 3 { obj := some 13, loaded := true, lock := none }).keys =
      [2, 3] ∧
    odGet (pc5.set 3
        { obj := some 13, loaded := true, lock := none }).cache 1 = none ∧
    ([2, 3] : List Nat) ≠ [1, 3] := by
  decide

/-- C5 amended: `CachePool.get` waits for the readiness signal before
returning — a caller of `get` never observes a partially constructed object —
but it does not update recency; recency is updated by `acquire`, which moves
the key to the most-recently-used end of the ordering. -/
theorem c5_amended_get_waits_acquire_marks_recency {K V : Type}
    [DecidableEq K] (p : CachePool K V) (k : K) (o : ThreadSafeObject V)
    (t : Nat) (pay : Option V) (p' : CachePool K V)
    (hfound : p.get k = .found o) (hacq : p.acquire k t = .ok pay p') :
    o.loaded = true ∧ (p'.cache.map Prod.fst).getLast? = some k :=
  ⟨((get_found_iff p k o).mp hfound).2, (acquire_ok_facts hacq).1⟩

/-- Witness for C5 amended: on the concrete pool `pc5`, `get 1` returns a
loaded entry and `acquire 1` by thread 7 moves key 1 to the
most-recently-used end. -/
theorem c5_amended_get_waits_acquire_marks_recency_witness :
    (ThreadSafeObject.loaded { obj := some 11, loaded := true, lock := none } :
        Bool) = true ∧
    ((pc5after.cache.map Prod.fst).getLast? = some 1) :=
  c5_amended_get_waits_acquire_marks_recency pc5 1
    { obj := some 11, loaded := true, lock := none } 7 (some 11) pc5after
    (by decide) (by decide)

/-- C6: with capacity bound 2 and the three distinct keys 0, 1, 2 inserted in
that order into a fresh pool (no other accesses), the pool holds exactly keys
1 and 2 in order, and key 0 has been evicted. -/
theorem c6_capacity_two_keeps_last_two :
    ((((CachePool.init Nat Nat 2).set 0
          { obj := some 100, loaded := true, lock := none }).set 1
          { obj := some 101, loaded := true, lock := none }).set 2
          { obj := some 102, loaded := true, lock := none }).keys = [1, 2] ∧
    ((((CachePool.init Nat Nat 2).set 0
          { obj := some 100, loaded := true, lock := none }).set 1
          { obj := some 101, loaded := true, lock := none }).set 2
          { obj := some 102, loaded := true, lock := none }).get 0 =
      .absent := by
  decide

/-- Counterexample to C8 as stated: `unload_vector_store` (and the `pop` it
calls) removes entry 1 from the pool even though the entry's exclusive lock
is held by thread 7 throughout, and the removed entry comes back with its
lock state untouched (`some 7`): the destroyer never acquires the per-object
lock — a genuine acquisition of a lock held by another thread would have had
to wait for the lock, and would have changed its holder. -/
theorem c8_counterexample :
    pc8.unload_vector_store 1 = some { cache_num := -1, cache := [] } ∧
    (pc8.pop (some 1)).1 =
      some { obj := some 11, loaded := true, lock := some 7 } := by
  decide

/-- C8 amended: destroying a loaded cached entry (via `unload_vector_store`
or `pop`) removes it from the key-to-object map without acquiring the
entry's per-object exclusive lock: removal succeeds unconditionally — also
while another thread holds the lock — and returns the entry with its lock
state unchanged; no resource release guarded by that lock takes place. -/
theorem c8_amended_removal_without_lock {K V : Type} [DecidableEq K]
    (p : CachePool K V) (k : K) (o : ThreadSafeObject V)
    (hbound : odGet p.cache k = some o) (hl : o.loaded = true) :
    p.unload_vector_store k = some (p.pop (some k)).2 ∧
    (p.pop (some k)).1 = some o := by
  have hfound : p.get k = .found o := (get_found_iff p k o).mpr ⟨hbound, hl⟩
  constructor
  · rw [CachePool.unload_vector_store, hfound]
  · rw [CachePool.pop]
    exact hbound

/-- Witness for C8 amended: removal of the locked entry of `pc8` succeeds and
returns the entry still locked by thread 7. -/
theorem c8_amended_removal_without_lock_witness :
    pc8.unload_vector_store 1 = some (pc8.pop (some 1)).2 ∧
    (pc8.pop (some 1)).1 =
      some { obj := some 11, loaded := true, lock := some 7 } :=
  c8_amended_removal_without_lock pc8 1
    { obj := some 11, loaded := true, lock := some 7 } (by decide) (by decide)

/-- C9: a capacity bound of zero or any negative integer disables eviction
entirely: the capacity check is the identity and an insertion only performs
the ordered-dictionary assignment, never removing an entry.  (Constructing a
pool with such a bound is the total function `CachePool.init`, which
validates nothing and so never raises.) -/
theorem c9_nonpositive_capacity_never_evicts {K V : Type} [DecidableEq K]
    (p : CachePool K V) (k : K) (o : ThreadSafeObject V)
    (hn : p.cache_num ≤ 0) :
    CachePool._check_count p = p ∧
    (p.set k o).cache = odSet p.cache k o := by
  have h1 : ¬ p.cache_num > 0 := by omega
  constructor
  · rw [CachePool._check_count, if_neg h1]
  · rw [CachePool.set, CachePool._check_count, if_neg (by exact h1)]

/-- Witness for C9: a zero-capacity pool holding one entry accepts a second
entry without evicting anything. -/
theorem c9_nonpositive_capacity_never_evicts_witness :
    CachePool._check_count
        (CachePool.mk 0 [(1, { obj := some 11, loaded := true, lock := none })]
          : CachePool Nat Nat) =
      CachePool.mk 0 [(1, { obj := some 11, loaded := true, lock := none })] ∧
    ((CachePool.mk 0 [(1, { obj := some 11, loaded := true, lock := none })]
        : CachePool Nat Nat).set 2
        { obj := some 12, loaded := true, lock := none }).cache =
      odSet [(1, { obj := some 11, loaded := true, lock := none })] 2
        { obj := some 12, loaded := true, lock := none } :=
  c9_nonpositive_capacity_never_evicts
    (CachePool.mk 0 [(1, { obj := some 11, loaded := true, lock := none })]) 2
    { obj := some 12, loaded := true, lock := none } (by decide)

/-- Ready lookup after writing a ready entry into the cache slot: the update
performed at the end of a successful construction makes `get` find it. -/
theorem get_after_update {K V : Type} [DecidableEq K] (p : CachePool K V)
    (k : K) (o : ThreadSafeObject V) (ho : o.loaded = true) :
    CachePool.get { p with cache := odSet p.cache k o } k = .found o :=
  (get_found_iff _ _ _).mpr ⟨odGet_odSet_self _ _ _, ho⟩

/-- The miss path of `EmbeddingsPool.load_embeddings`: on an absent key the
call constructs the handle, stores a ready entry under the key
`(model, embedding_device)` and returns the handle with the constructor
marked as run. -/
theorem load_embeddings_absent (build : String → String → Nat)
    (pool : CachePool (String × String) Nat) (model d : Option String)
    (habs : odGet pool.cache
      (model.getD EMBEDDING_MODEL, embedding_device) = none) :
    ∃ p1, load_embeddings build pool model d =
        .ok (some (build (model.getD EMBEDDING_MODEL) embedding_device)) p1
          true ∧
      odGet p1.cache (model.getD EMBEDDING_MODEL, embedding_device) =
        some {
          obj := some (build (model.getD EMBEDDING_MODEL) embedding_device),
          loaded := true,
          lock := none } := by
  have hget : pool.get (model.getD EMBEDDING_MODEL, embedding_device) =
      .absent := by
    rw [CachePool.get, habs]
  rw [load_embeddings]
  simp only [hget]
  rw [get_after_update _ _ _ rfl]
  exact ⟨_, rfl, odGet_odSet_self _ _ _⟩

/-- The hit path of `EmbeddingsPool.load_embeddings`: on a ready cached key
the call returns the cached payload, the pool unchanged, and no constructor
run. -/
theorem load_embeddings_found (build : String → String → Nat)
    (pool : CachePool (String × String) Nat) (model d : Option String)
    (o : ThreadSafeObject Nat)
    (h : odGet pool.cache
      (model.getD EMBEDDING_MODEL, embedding_device) = some o)
    (hl : o.loaded = true) :
    load_embeddings build pool model d = .ok o.obj pool false := by
  have hget : pool.get (model.getD EMBEDDING_MODEL, embedding_device) =
      .found o := (get_found_iff _ _ _).mpr ⟨h, hl⟩
  rw [load_embeddings]
  simp only [hget]

/-- C10: the `device` argument of `EmbeddingsPool.load_embeddings` is dead:
the source overwrites it with `embedding_device()` before forming the cache
key, so two calls that differ only in the device argument are literally the
same computation; moreover after a first call constructs the handle for a
model, a second call with any other device argument returns the very same
cached handle without running a constructor. -/
theorem c10_device_argument_ignored (build : String → String → Nat)
    (pool : CachePool (String × String) Nat) (model d1 d2 : Option String)
    (habs : odGet pool.cache
      (model.getD EMBEDDING_MODEL, embedding_device) = none) :
    load_embeddings build pool model d1 =
      load_embeddings build pool model d2 ∧
    ∃ p1, load_embeddings build pool model d1 =
        .ok (some (build (model.getD EMBEDDING_MODEL) embedding_device)) p1
          true ∧
      load_embeddings build p1 model d2 =
        .ok (some (build (model.getD EMBEDDING_MODEL) embedding_device)) p1
          false := by
  refine ⟨rfl, ?_⟩
  obtain ⟨p1, h1, h2⟩ := load_embeddings_absent build pool model d1 habs
  exact ⟨p1, h1, load_embeddings_found build p1 model d2 _ h2 rfl⟩

/-- Witness for C10: on an empty pool, calling with device `"cuda"` and then
`"cpu"` yields identical results, and the second call returns the handle the
first call constructed, without constructing again. -/
theorem c10_device_argument_ignored_witness :
    load_embeddings (fun x y => 42) (CachePool.init (String × String) Nat 1)
        none (some "cuda") =
      load_embeddings (fun x y => 42) (CachePool.init (String × String) Nat 1)
        none (some "cpu") ∧
    ∃ p1, load_embeddings (fun x y => 42)
        (CachePool.init (String × String) Nat 1) none (some "cuda") =
        .ok (some 42) p1 true ∧
      load_embeddings (fun x y => 42) p1 none (some "cpu") =
        .ok (some 42) p1 false :=
  c10_device_argument_ignored (fun x y => 42)
    (CachePool.init (String × String) Nat 1) none (some "cuda") (some "cpu")
    (by decide)

/-- C7: loading a vector store whose key is absent from the pool and whose
index file is absent from disk raises the Not Found `RuntimeError` when
`create` is false (leaving the placeholder behind, as the source does), and
when `create` is true it succeeds, returns a ready entry holding the freshly
built empty store, and persists that store — containing zero documents — on
disk at the store's path. -/
theorem c7_load_vs_not_found_or_create_empty
    (pool : CachePool (String × String) FAISS) (disk : Disk) (kb : String)
    (vn : Option String) (em : String) (t : Nat)
    (habs : odGet pool.cache (kb, vn.getD em) = none)
    (hdisk : odGet disk (get_vs_path kb (vn.getD em)) = none) :
    (∃ p1, load_vector_store pool disk kb vn false em t =
      .notFound ("knowledge base " ++ kb ++ " not exist.") p1 disk ∧
      odGet p1.cache (kb, vn.getD em) =
        some { obj := none, loaded := false, lock := none }) ∧
    load_vector_store pool disk kb vn true em t =
      .ok { obj := some new_vector_store, loaded := true, lock := none }
        { pool.set (kb, vn.getD em)
            { obj := none, loaded := false, lock := some t } with
          cache := odSet
            (pool.set (kb, vn.getD em)
              { obj := none, loaded := false, lock := some t }).cache
            (kb, vn.getD em)
            { obj := some new_vector_store, loaded := true, lock := none } }
        (odSet disk (get_vs_path kb (vn.getD em)) new_vector_store) ∧
    odGet (odSet disk (get_vs_path kb (vn.getD em)) new_vector_store)
        (get_vs_path kb (vn.getD em)) = some new_vector_store ∧
    new_vector_store.docs_count = 0 := by
  have hget : pool.get (kb, vn.getD em) = .absent := by
    rw [CachePool.get, habs]
  refine ⟨?_, ?_, odGet_odSet_self _ _ _, rfl⟩
  · have h1 : load_vector_store pool disk kb vn false em t =
        .notFound ("knowledge base " ++ kb ++ " not exist.")
          (notFoundPool pool (kb, vn.getD em) t) disk := by
      rw [load_vector_store]
      simp only [hget, hdisk]
      rfl
    exact ⟨notFoundPool pool (kb, vn.getD em) t, h1, odGet_odSet_self _ _ _⟩
  · rw [load_vector_store]
    simp only [hget, hdisk]
    rfl

/-- Witness for C7: on an empty pool and empty disk, loading `kb1/default`
with `create = false` raises Not Found, and with `create = true` persists an
empty store. -/
theorem c7_load_vs_not_found_or_create_empty_witness :
    (∃ p1, load_vector_store (CachePool.init (String × String) FAISS 1) []
        "kb1" (some "default") false EMBEDDING_MODEL 0 =
      .notFound ("knowledge base " ++ "kb1" ++ " not exist.") p1 [] ∧
      odGet p1.cache ("kb1", "default") =
        some { obj := none, loaded := false, lock := none }) ∧
    load_vector_store (CachePool.init (String × String) FAISS 1) [] "kb1"
        (some "default") true EMBEDDING_MODEL 0 =
      .ok { obj := some new_vector_store, loaded := true, lock := none }
        { (CachePool.init (String × String) FAISS 1).set ("kb1", "default")
            { obj := none, loaded := false, lock := some 0 } with
          cache := odSet
            (((CachePool.init (String × String) FAISS 1).set
              ("kb1", "default")
              { obj := none, loaded := false, lock := some 0 })).cache
            ("kb1", "default")
            { obj := some new_vector_store, loaded := true, lock := none } }
        (odSet [] (get_vs_path "kb1" "default") new_vector_store) ∧
    odGet (odSet [] (get_vs_path "kb1" "default") new_vector_store)
        (get_vs_path "kb1" "default") = some new_vector_store ∧
    new_vector_store.docs_count = 0 :=
  c7_load_vs_not_found_or_create_empty
    (CachePool.init (String × String) FAISS 1) [] "kb1" (some "default")
    EMBEDDING_MODEL 0 (by decide) (by decide)

end KBCache
